import Mathlib

/-!
Verification development for the cscope-based function-call-graph tool
(`main.cpp`).  The core decoder and query engine are shallowly embedded:

* the input database is a fully materialized read-only byte span, modelled
  as a `List Char` (`pos_t.data`); `pos_t.data_len` of the C code is always
  the span's length, so it is represented by `p.data.length`;
* the C stack buffers (`char line[1024]`) are modelled as `String` values
  threaded through each loop.  A buffer that C leaves uninitialized is an
  indeterminate value; it enters the model as an explicit parameter (`g`),
  which concrete runs instantiate;
* `CSFuncDef` objects are heap-allocated in C and shared by pointer between
  a file's `_functions` table and its `_current_fndef` cursor.  The model
  keeps an explicit allocation list (`heap : List CSFuncDef`) and stores
  indices into it, which preserves the pointer-aliasing behaviour;
* the unbounded `while` loops of the decoder advance the cursor by at least
  one byte per iteration in every execution whose behaviour is defined, so
  they are given a fuel of `data.length + 2` iterations and return `none`
  (never a wrong value) if that ever runs out;
* `unordered_map` is modelled as an association list with first-match
  lookup and insert-if-absent; its unspecified iteration order is fixed to
  insertion order.  No theorem below depends on the iteration order of a
  map with more than one relevant entry;
* machine integers: `int`/`long` become `Int`, `size_t` offsets become
  `Nat`.  Overflow is not exercised by any statement below; the one place
  where a `size_t` subtraction could wrap (the rewind in
  `fileLoadSymbols`) models the wrap explicitly as an out-of-range offset.

The spinner, logging, argument parsing and stream handling are outside the
core per the design document and are not modelled.  `initTrailer` only
fills diagnostic fields that graph building never reads, so the load is
modelled as header decode, symbol decode and database build.
-/

/-- C `isspace` on the ASCII range: space, tab, newline, vertical tab,
form feed, carriage return. -/
def csIsSpace (ch : Char) : Bool :=
  ch = ' ' ∨ ch = '\t' ∨ ch = '\n' ∨ ch = Char.ofNat 11 ∨ ch = Char.ofNat 12 ∨ ch = '\r'

/-- `#define CS_FN_DEF '$'` -/
def CS_FN_DEF : Char := '$'

/-- The function-call mark (a backtick character, code 96). -/
def CS_FN_CALL : Char := Char.ofNat 96

/-- `cs_marks[]`: the recognized one-character marks.  Code 96 is the
backtick (function call), code 125 is the closing curly brace. -/
def cs_marks : List Char :=
  ['@', CS_FN_DEF, CS_FN_CALL, Char.ofNat 125, '#', ')',
   '~', '=', ';', 'c', 'e', 'g', 'l', 'm', 'p', 's', 't', 'u']

/-- `isMark`: linear scan of `cs_marks`. -/
def isMark (c : Char) : Bool :=
  cs_marks.any (fun m => m = c)

/-- Digit-accumulation loop shared by `atoi`/`atol`.  The C functions stop
at the first non-digit.  `int`/`long` overflow is not exercised by any
input considered here, so the value is an exact `Int`. -/
def atolDigits : List Char → Int → Int
  | [], acc => acc
  | ch :: rest, acc =>
    if ch.isDigit then atolDigits rest (acc * 10 + (Int.ofNat ch.toNat - 48)) else acc

/-- C `atol`: skip whitespace, optional sign, then digits. -/
def atol (s : List Char) : Int :=
  match s.dropWhile csIsSpace with
  | '-' :: rest => - atolDigits rest 0
  | '+' :: rest => atolDigits rest 0
  | t => atolDigits t 0

/-- C `atoi`, same numeric model as `atol`. -/
def atoi (s : List Char) : Int := atol s

/-- `strtok(buf, " ")` iteration: the maximal non-empty runs between
spaces, in order. -/
def strtokAux : List Char → List Char → List String
  | [], cur => if cur.length = 0 then [] else [String.mk cur.reverse]
  | ch :: rest, cur =>
    if ch = ' ' then
      if cur.length = 0 then strtokAux rest []
      else String.mk cur.reverse :: strtokAux rest []
    else strtokAux rest (ch :: cur)

/-- All tokens `strtok(buf, " ")` would produce over the buffer. -/
def strtokAll (l : List Char) : List String := strtokAux l []

/-- `pos_t`: stream cursor.  `data_len` is always initialized to the
buffer's size in the C code, so it is `data.length` here. -/
structure pos_t where
  off : Nat
  data : List Char
deriving DecidableEq

/-- `VALID(p)`: `p->off <= p->data_len`. -/
def VALID (p : pos_t) : Bool := p.off ≤ p.data.length

/-- The scanning loop of `getLine`: starting index of the first newline at
or after position `i`, with `data.drop i` the bytes not yet examined.
If no newline remains it stops at the end of the buffer (`CH == EOF`). -/
def findNlAux : List Char → Nat → Nat
  | [], i => i
  | ch :: rest, i => if ch = '\n' then i else findNlAux rest (i + 1)

/-- Index of the first newline at or after `i` (or the buffer length). -/
def findNl (data : List Char) (i : Nat) : Nat := findNlAux (data.drop i) i

/-- `getLine(pos, buf, buf_len)`: scan to the next newline or end of
buffer, advance past it, and copy the line into the caller's buffer —
unless the cursor ran off the end (`END`) or the line is longer than the
buffer, in which case the function returns early and the caller's buffer
keeps its previous contents.  The pair is (new cursor, buffer contents
after the call). -/
def getLine (p : pos_t) (buf : String) (buf_len : Nat) : pos_t × String :=
  let st := p.off
  let nl := findNl p.data st
  let len := nl - st
  let p1 : pos_t := { p with off := nl + 1 }
  if p1.off ≥ p.data.length ∨ len > buf_len then (p1, buf)
  else (p1, String.mk ((p.data.drop st).take len))

/-- `CSFuncCall` (a `CSSym`): name, mark and source line of one call-site
record.  The `_file` back-reference of `CSSym` is diagnostic only and
never read, so it is not carried. -/
structure CSFuncCall where
  name : String
  mark : Char
  line : Int
deriving DecidableEq

/-- `CSFuncDef` (a `CSSym`): a function definition owning its
name-keyed `_callees` map (key = callee name). -/
structure CSFuncDef where
  name : String
  mark : Char
  line : Int
  callees : List (String × CSFuncCall)
deriving DecidableEq

/-- `CSFile`: file name and mark, the name-keyed `_functions` map whose
values are heap indices of `CSFuncDef` objects (pointers in C), and the
`_current_fndef` cursor (null pointer = `none`). -/
structure CSFile where
  name : String
  mark : Char
  functions : List (String × Nat)
  current_fndef : Option Nat
deriving DecidableEq

/-- `CSDB`: function name → list of the distinct `CSFuncCall` objects it
makes (the `unordered_map<string, vector<const CSFuncCall*>>`). -/
abbrev CSDB := List (String × List CSFuncCall)

/-- `unordered_map::insert`: insert only if the key is absent. -/
def hashInsert {α : Type} (m : List (String × α)) (k : String) (v : α) :
    List (String × α) :=
  if m.any (fun p => p.1 = k) then m else m ++ [(k, v)]

/-- Key membership in an association-list map. -/
def containsKey {α : Type} (m : List (String × α)) (k : String) : Bool :=
  m.any (fun p => p.1 = k)

/-- Value stored under `k` (the mapped value of `operator[]` after the
key is known to be present; absent key gives the default empty list). -/
def mapGet (db : CSDB) (k : String) : List CSFuncCall :=
  match db.find? (fun p => p.1 = k) with
  | some pr => pr.2
  | none => []

/-- `CSFuncDef::addCallee`: unique add into the definition's `_callees`
map, through the heap index (the C pointer). -/
def addCallee (heap : List CSFuncDef) (i : Nat) (fncall : CSFuncCall) :
    List CSFuncDef :=
  match heap.get? i with
  | some fd => heap.set i { fd with callees := hashInsert fd.callees fncall.name fncall }
  | none => heap

/-- `CSFile::addFunctionDef`: allocate the new definition (append to the
heap), insert it into `_functions` only if the name is absent, and point
`_current_fndef` at the new object unconditionally. -/
def addFunctionDef (file : CSFile) (heap : List CSFuncDef) (fd : CSFuncDef) :
    CSFile × List CSFuncDef :=
  ({ file with
      functions := hashInsert file.functions fd.name heap.length,
      current_fndef := some heap.length },
   heap ++ [fd])

/-- `CSFuncDef::getCallees`: push every mapped call object. -/
def getCallees (fd : CSFuncDef) : List CSFuncCall :=
  fd.callees.map (fun pr => pr.2)

/-- `newFile(str)`: skip whitespace, then the first character is the file
mark and the rest is the path.  On an all-whitespace or empty line the C
code reads the terminator as the mark and the (out-of-bounds) bytes after
it as the name; that undefined case is modelled as a NUL mark with an
empty name (such a file is discarded by `initSymbols` either way). -/
def newFile (str : String) : CSFile :=
  match str.toList.dropWhile csIsSpace with
  | [] => { name := "", mark := Char.ofNat 0, functions := [], current_fndef := none }
  | m :: rest => { name := String.mk rest, mark := m, functions := [], current_fndef := none }

/-- `loadSymbolsInFile(file, pos, lineno)`: read symbol lines until an
empty line (or an invalid cursor).  Leading spaces (not tabs) are
skipped; a record is a tab, a recognized mark and the symbol text.  Only
`CS_FN_DEF` and `CS_FN_CALL` create entities; a call with no current
definition is dropped; mark-only lines are skipped; after a non-empty
symbol the following non-symbol-text line is read and discarded.  `buf`
is the function's `line[1024]` buffer (initially indeterminate, then the
most recent read).  The result is (file, heap, cursor) — the buffer is
local and dies with the call.  Fuel bounds the iteration count; `none`
means the fuel ran out (never happens with `data.length + 2`). -/
def loadSymbolsInFile :
    Nat → CSFile → List CSFuncDef → pos_t → String → Int →
    Option (CSFile × List CSFuncDef × pos_t)
  | 0, _, _, _, _, _ => none
  | Nat.succ fuel, file, heap, pos, buf, lineno =>
    if VALID pos then
      let r := getLine pos buf 1024
      let pos1 := r.1
      let line := r.2
      if line.length = 0 then some (file, heap, pos1)
      else
        let c := line.toList.dropWhile (fun ch => ch = ' ')
        let mc : Option Char × List Char :=
          match c with
          | '\t' :: m :: rest => if isMark m then (some m, rest) else (none, c)
          | _ => (none, c)
        let mark := mc.1
        let c1 := mc.2
        if mark = none ∨ (mark ≠ some CS_FN_DEF ∧ mark ≠ some CS_FN_CALL) then
          loadSymbolsInFile fuel file heap pos1 line lineno
        else if (match c1 with | [m2] => isMark m2 | _ => false) then
          loadSymbolsInFile fuel file heap pos1 line lineno
        else if mark = some CS_FN_CALL ∧ file.current_fndef = none then
          -- this is probably a macro: no current definition, drop the call
          loadSymbolsInFile fuel file heap pos1 line lineno
        else
          let st :=
            if mark = some CS_FN_CALL then
              match file.current_fndef with
              | some i =>
                (file, addCallee heap i { name := String.mk c1, mark := CS_FN_CALL, line := lineno })
              | none => (file, heap)
            else
              addFunctionDef file heap
                { name := String.mk c1, mark := CS_FN_DEF, line := lineno, callees := [] }
          if c1.length = 0 then
            loadSymbolsInFile fuel st.1 st.2 pos1 line lineno
          else
            let r2 := getLine pos1 line 1024
            loadSymbolsInFile fuel st.1 st.2 r2.1 r2.2 lineno
    else some (file, heap, pos)

/-- The `while (VALID(pos))` loop of `fileLoadSymbols`: read a line; if it
starts (after whitespace) with the file mark `@`, un-read it by
subtracting its `strlen` from the cursor and return; otherwise treat it
as a line-number record and decode the symbols under it.  The `size_t`
rewind would wrap below zero to a huge offset, which is invalid for any
buffer; that case is modelled as `data.length + 1`.  `g` is the
indeterminate initial content of the fresh `line[1024]` buffer of each
`loadSymbolsInFile` call. -/
def fileLoadSymbolsLoop :
    Nat → String → CSFile → List CSFuncDef → pos_t → String →
    Option (CSFile × List CSFuncDef × pos_t)
  | 0, _, _, _, _, _ => none
  | Nat.succ fuel, g, file, heap, pos, buf =>
    if VALID pos then
      let r := getLine pos buf 1024
      let pos1 := r.1
      let line := r.2
      let c := line.toList.dropWhile csIsSpace
      if c.head? = some '@' then
        let newOff := if line.length ≤ pos1.off then pos1.off - line.length
                      else pos1.data.length + 1
        some (file, heap, { pos1 with off := newOff })
      else
        let lineno := atol c
        match loadSymbolsInFile (pos1.data.length + 2) file heap pos1 g lineno with
        | some st => fileLoadSymbolsLoop fuel g st.1 st.2.1 st.2.2 line
        | none => none
    else some (file, heap, pos)

/-- `fileLoadSymbols(file, pos)`: discard the line after the file record
(the empty line of the format), then run the record loop.  `g` is the
indeterminate initial content of this call's `line[1024]` buffer. -/
def fileLoadSymbols (fuel : Nat) (g : String) (file : CSFile)
    (heap : List CSFuncDef) (pos : pos_t) :
    Option (CSFile × List CSFuncDef × pos_t) :=
  let r := getLine pos g 1024
  fileLoadSymbolsLoop fuel g file heap r.1 r.2

/-- `CSHeader`.  The C `-T` flag field is named `prefix_match`; that
identifier is unusable here, so the field is `flagT`. -/
structure CSHeader where
  version : Int
  compression : Bool
  inverted_index : Bool
  flagT : Bool
  syms_start : Nat
  trailer : Nat
  dir : String
deriving DecidableEq

/-- The optionals loop of `initHeader`: `-c`, `-T`, `-q` set flags; an
unrecognized `-x` token logs and returns early (leaving `trailer` at its
previous — in C, indeterminate — value); the first other token is the
trailer offset and ends the loop.  A negative `atol` would wrap through
the `size_t` conversion; no input below exercises that. -/
def headerOptionals : List String → CSHeader → CSHeader
  | [], hdr => hdr
  | tok :: rest, hdr =>
    if tok.toList.head? = some '-' ∧ tok.length = 2 then
      if tok.toList.getD 1 ' ' = 'c' then
        headerOptionals rest { hdr with compression := true }
      else if tok.toList.getD 1 ' ' = 'T' then
        headerOptionals rest { hdr with flagT := true }
      else if tok.toList.getD 1 ' ' = 'q' then
        headerOptionals rest { hdr with inverted_index := true }
      else hdr
    else { hdr with trailer := (atol tok.toList).toNat }

/-- `CS::initHeader`: read the first line, record the offset after it as
`syms_start`, then tokenize.  `strncmp(tok, "cscope", 6)` accepts any
token whose first six characters are `cscope`; on a mismatch the method
logs and returns with only `syms_start` written — the other fields keep
their previous (in C, indeterminate) values `hdr0`.  `dir` is `strndup`'d
to at most 1024 characters.  `g` is the indeterminate initial content of
the local `buf[1024]`. -/
def initHeader (data : List Char) (hdr0 : CSHeader) (g : String) : CSHeader :=
  let p0 : pos_t := { off := 0, data := data }
  let r := getLine p0 g 1024
  let hdr1 := { hdr0 with syms_start := r.1.off }
  match strtokAll r.2.toList with
  | [] => hdr1
  | t0 :: rest =>
    if t0.toList.take 6 ≠ "cscope".toList then hdr1
    else
      let hdr2 := { hdr1 with version := atoi (rest.getD 0 "").toList }
      let hdr3 := { hdr2 with dir := String.mk ((rest.getD 1 "").toList.take 1024) }
      headerOptionals (rest.drop 2) hdr3

/-- The `while` loop of `CS::initSymbols`: while the cursor is valid and
at or before the trailer offset, read a file-record line, decode the
file's symbols, and keep the file unless its name is empty.  `buf` is
this loop's own `line[1024]`; `g` instantiates every fresh buffer of the
inner calls. -/
def initSymbolsLoop :
    Nat → CSHeader → List CSFile → List CSFuncDef → pos_t → String → String →
    Option (List CSFile × List CSFuncDef)
  | 0, _, _, _, _, _, _ => none
  | Nat.succ fuel, hdr, files, heap, pos, buf, g =>
    if VALID pos ∧ pos.off ≤ hdr.trailer then
      let r := getLine pos buf 1024
      let file := newFile r.2
      match fileLoadSymbols (r.1.data.length + 2) g file heap r.1 with
      | some st =>
        if st.1.name.length = 0 then
          initSymbolsLoop fuel hdr files st.2.1 st.2.2 r.2 g
        else
          initSymbolsLoop fuel hdr (files ++ [st.1]) st.2.1 st.2.2 r.2 g
      | none => none
    else some (files, heap)

/-- `CS::initSymbols`: run the file loop from `syms_start`. -/
def initSymbols (data : List Char) (hdr : CSHeader) (g : String) :
    Option (List CSFile × List CSFuncDef) :=
  initSymbolsLoop (data.length + 2) hdr [] [] { off := hdr.syms_start, data := data } g g

/-- The database-building pass of `CS::CS`: for every decoded file, for
every registered definition, insert (if absent) its name with the list of
its callees. -/
def buildDB (files : List CSFile) (heap : List CSFuncDef) : CSDB :=
  files.foldl
    (fun db f =>
      f.functions.foldl
        (fun db2 pr =>
          match heap.get? pr.2 with
          | some fd => hashInsert db2 fd.name (getCallees fd)
          | none => db2)
        db)
    []

/-- `CS::CS(fp)` minus the excluded collaborators: decode the header,
decode the symbol region, build the database.  `initTrailer` writes only
diagnostic fields that graph building never reads and is omitted.  `hdr0`
is the indeterminate initial content of the un-initialized `_hdr` member;
`g` instantiates every indeterminate stack buffer. -/
def csLoad (data : List Char) (hdr0 : CSHeader) (g : String) : Option CSDB :=
  let hdr := initHeader data hdr0 g
  match initSymbols data hdr g with
  | some st => some (buildDB st.1 st.2)
  | none => none

/-- One rendered edge: `std::format("    {} -> {}\n", a, b)`. -/
def edgeLine (a b : String) : String :=
  "    " ++ a ++ " -> " ++ b ++ "\n"

/-- `isCallerOf(db, a, b)`: does `a` call `b`?  `(*db)[a]` is
`operator[]`: it inserts an empty vector when `a` is absent, so the
(possibly updated) database is returned alongside the answer. -/
def isCallerOf (db : CSDB) (a b : String) : Bool × CSDB :=
  let db1 := hashInsert db a []
  ((mapGet db1 a).any (fun callee => callee.name = b), db1)

/-- `getCalleesRec(db, fn_name, depth)` at non-negative depth `d` (the
`depth <= 0` early return is the `0` case; the C recursion at `depth - 1`
is the recursion at `d`).  `(*db)[fn_name]` inserts an empty entry when
the name is absent; then for each callee an edge is emitted and the
recursion continues on the callee's name, threading the database. -/
def getCalleesRecN : Nat → CSDB → String → String × CSDB
  | 0, db, _ => ("", db)
  | Nat.succ d, db, fn_name =>
    let db1 := hashInsert db fn_name []
    (mapGet db1 fn_name).foldl
      (fun acc callee =>
        let sr := getCalleesRecN d acc.2 callee.name
        (acc.1 ++ edgeLine fn_name callee.name ++ sr.1, sr.2))
      ("", db1)

/-- `getCalleesRec` with the C `int depth` argument: `depth <= 0` emits
nothing; otherwise each level consumes one unit of depth. -/
def getCalleesRec (db : CSDB) (fn_name : String) (depth : Int) : String × CSDB :=
  if depth ≤ 0 then ("", db) else getCalleesRecN depth.toNat db fn_name

/-- `getCallersRec(db, fn_name, depth)` at non-negative depth: scan every
entry of the database; each caller of `fn_name` contributes an edge and a
recursion on the caller, threading the database state through
`isCallerOf`. -/
def getCallersRecN : Nat → CSDB → String → String × CSDB
  | 0, db, _ => ("", db)
  | Nat.succ d, db, fn_name =>
    db.foldl
      (fun acc pr =>
        let r := isCallerOf acc.2 pr.1 fn_name
        if r.1 then
          let sr := getCallersRecN d r.2 pr.1
          (acc.1 ++ edgeLine pr.1 fn_name ++ sr.1, sr.2)
        else (acc.1, r.2))
      ("", db)

/-- `getCallersRec` with the C `int depth` argument. -/
def getCallersRec (db : CSDB) (fn_name : String) (depth : Int) : String × CSDB :=
  if depth ≤ 0 then ("", db) else getCallersRecN depth.toNat db fn_name

/-! ### Concrete inputs and graphs used by the statements below.

Symbol names in the databases are chosen so that no single-character name
collides with a mark character (the decoder skips a record whose symbol
text is one mark character — `isMark(c[0]) && strlen(c+1) == 0`). -/

/-- An arbitrary instantiation of the indeterminate initial `_hdr` for
well-formed loads (every field is overwritten on those paths). -/
def hdr0c : CSHeader := ⟨0, false, false, false, 0, 0, ""⟩

/-- An instantiation of the indeterminate initial `_hdr` whose trailer
field (999) is visibly garbage, for the failed-header loads. -/
def hdrG : CSHeader := ⟨7, false, false, false, 3, 999, "/x"⟩

/-- A database whose header tag is not `cscope`, followed by a normal
symbol region: one file defining `f`, which calls `k`. -/
def c1data : List Char :=
  "xscope 15 /dir 40\n\t@a.c\n\n1 x\n\t$f\nafter\n\t`k\nafter\n\n0\n".toList

/-- A header line with the unrecognized flag token `-z` before the
trailer offset. -/
def c1flagData : List Char := "cscope 15 /dir -z 40\n".toList

/-- The file object for the rewind experiment. -/
def c3file : CSFile := newFile "\t@a.c"

/-- A symbol region fragment for one file: an empty line, a line-number
group defining `f`, and then the next file record `\t@b.c` (whose line
starts at offset 16) followed by further data. -/
def c3data : List Char := "\n1 x\n\t$f\nafter\n\n\t@b.c\n0\n".toList

/-- Two files both defining `f`: the first file's `f` calls `a`, the
second file's `f` calls `b`, and the second file also defines `k`
calling `d`. -/
def c5data : List Char :=
  "cscope 15 /dir 500\n\t@a.c\n\n1 x\n\t$f\nafter\n\t`a\nafter\n\n\t@b.c\n\n2 y\n\t$f\nafter\n\t`b\nafter\n\t$k\nafter\n\t`d\nafter\n\n0\n".toList

/-- One definition `f` with two call-site records naming the same callee
`k`. -/
def c8data : List Char :=
  "cscope 15 /dir 500\n\t@a.c\n\n1 x\n\t$f\nafter\n\t`k\nafter\n\t`k\nafter\n\n0\n".toList

/-- A call record (`x`) before any definition record of the file, then a
definition `f` calling `k`. -/
def c9data : List Char :=
  "cscope 15 /dir 500\n\t@a.c\n\n1 x\n\t`x\nafter\n\t$f\nafter\n\t`k\nafter\n\n0\n".toList

/-- Definition `f` (calls `a`), a duplicate definition record for `f`
(the call `b` after it goes to the discarded object), then definition `h`
(calls `w`). -/
def c10data : List Char :=
  "cscope 15 /dir 500\n\t@a.c\n\n1 x\n\t$f\nafter\n\t`a\nafter\n\t$f\nafter\n\t`b\nafter\n\t$h\nafter\n\t`w\nafter\n\n0\n".toList

/-- A one-edge graph A → B (B is not a key). -/
def c2db : CSDB := [("A", [⟨"B", CS_FN_CALL, 1⟩])]

/-- The graph with exactly the edges A → B and B → C. -/
def c6db : CSDB := [("A", [⟨"B", CS_FN_CALL, 1⟩]), ("B", [⟨"C", CS_FN_CALL, 2⟩])]

/-- The same graph with an extra edge C → D, to witness that C's own
callees are not explored at depth 2. -/
def c6dbD : CSDB := c6db ++ [("C", [⟨"D", CS_FN_CALL, 3⟩])]

/-- The self call-site A → A. -/
def selfCall : CSFuncCall := ⟨"A", CS_FN_CALL, 1⟩

/-- The graph whose only edge is the self-edge A → A. -/
def selfDb : CSDB := [("A", [selfCall])]

/-- `n` copies of the rendered self-edge. -/
def edgeRepeat : Nat → String
  | 0 => ""
  | Nat.succ n => "    A -> A\n" ++ edgeRepeat n

/-! ### Helper lemmas -/

theorem findNlAux_ge : ∀ (l : List Char) (i : Nat), i ≤ findNlAux l i := by
  intro l
  induction l with
  | nil => intro i; exact Nat.le_refl i
  | cons ch rest ih =>
    intro i
    simp only [findNlAux]
    split
    · exact Nat.le_refl i
    · exact Nat.le_trans (Nat.le_succ i) (ih (i + 1))

theorem findNl_ge (data : List Char) (i : Nat) : i ≤ findNl data i :=
  findNlAux_ge (data.drop i) i

theorem hashInsert_of_contains {α : Type} (m : List (String × α)) (k : String) (v : α)
    (h : containsKey m k = true) : hashInsert m k v = m := by
  unfold containsKey at h
  simp [hashInsert, h]

theorem hashInsert_extend {α : Type} (m : List (String × α)) (k : String) (v : α) :
    ∃ t, hashInsert m k v = m ++ t := by
  unfold hashInsert
  split
  · exact ⟨[], by simp⟩
  · exact ⟨[(k, v)], rfl⟩

theorem contains_hashInsert_self {α : Type} (m : List (String × α)) (k : String) (v : α) :
    containsKey (hashInsert m k v) k = true := by
  unfold hashInsert containsKey
  split
  · assumption
  · simp

theorem contains_of_mem {α : Type} (m : List (String × α)) (pr : String × α)
    (h : pr ∈ m) : containsKey m pr.1 = true := by
  unfold containsKey
  rw [List.any_eq_true]
  exact ⟨pr, h, by simp⟩

theorem getSetSame {α : Type} : ∀ (l : List α) (i : Nat) (a b : α),
    l.get? i = some a → (l.set i b).get? i = some b := by
  intro l
  induction l with
  | nil => intro i a b h; simp at h
  | cons x xs ih =>
    intro i a b h
    cases i with
    | zero => rfl
    | succ j => exact ih j a b (by simpa using h)

theorem setGetSelf {α : Type} : ∀ (l : List α) (i : Nat) (a : α),
    l.get? i = some a → l.set i a = l := by
  intro l
  induction l with
  | nil => intro i a h; simp at h
  | cons x xs ih =>
    intro i a h
    cases i with
    | zero =>
      simp only [List.get?] at h
      cases h
      rfl
    | succ j =>
      simp only [List.set]
      rw [ih j a (by simpa using h)]

theorem isCallerOf_snd (db : CSDB) (a b : String) (h : containsKey db a = true) :
    (isCallerOf db a b).2 = db := by
  unfold isCallerOf
  simp [hashInsert_of_contains db a [] h]

theorem callersFoldFrame (d : Nat)
    (IH : ∀ (db : CSDB) (fn : String), (getCallersRecN d db fn).2 = db) :
    ∀ (l : List (String × List CSFuncCall)) (fn : String) (s : String) (db : CSDB),
      (∀ pr ∈ l, containsKey db pr.1 = true) →
      (l.foldl
        (fun acc pr =>
          let r := isCallerOf acc.2 pr.1 fn
          if r.1 then
            let sr := getCallersRecN d r.2 pr.1
            (acc.1 ++ edgeLine pr.1 fn ++ sr.1, sr.2)
          else (acc.1, r.2))
        (s, db)).2 = db := by
  intro l fn
  induction l with
  | nil => intro s db _; rfl
  | cons pr rest ih =>
    intro s db h
    have hpr : containsKey db pr.1 = true := h pr (List.mem_cons_self _ _)
    have hrest : ∀ q ∈ rest, containsKey db q.1 = true :=
      fun q hq => h q (List.mem_cons_of_mem _ hq)
    have hio : (isCallerOf db pr.1 fn).2 = db := isCallerOf_snd db pr.1 fn hpr
    have h2 :
        ((if (isCallerOf db pr.1 fn).1 = true then
            (s ++ edgeLine pr.1 fn ++ (getCallersRecN d (isCallerOf db pr.1 fn).2 pr.1).1,
             (getCallersRecN d (isCallerOf db pr.1 fn).2 pr.1).2)
          else (s, (isCallerOf db pr.1 fn).2)) : String × CSDB).2 = db := by
      by_cases hb : (isCallerOf db pr.1 fn).1 = true
      · rw [if_pos hb]
        show (getCallersRecN d (isCallerOf db pr.1 fn).2 pr.1).2 = db
        rw [hio]
        exact IH db pr.1
      · rw [if_neg hb]
        exact hio
    have hrest2 : ∀ q ∈ rest,
        containsKey
          ((if (isCallerOf db pr.1 fn).1 = true then
              (s ++ edgeLine pr.1 fn ++ (getCallersRecN d (isCallerOf db pr.1 fn).2 pr.1).1,
               (getCallersRecN d (isCallerOf db pr.1 fn).2 pr.1).2)
            else (s, (isCallerOf db pr.1 fn).2)) : String × CSDB).2 q.1 = true := by
      intro q hq
      rw [h2]
      exact hrest q hq
    exact
      (ih
        ((if (isCallerOf db pr.1 fn).1 = true then
            (s ++ edgeLine pr.1 fn ++ (getCallersRecN d (isCallerOf db pr.1 fn).2 pr.1).1,
             (getCallersRecN d (isCallerOf db pr.1 fn).2 pr.1).2)
          else (s, (isCallerOf db pr.1 fn).2)) : String × CSDB).1
        ((if (isCallerOf db pr.1 fn).1 = true then
            (s ++ edgeLine pr.1 fn ++ (getCallersRecN d (isCallerOf db pr.1 fn).2 pr.1).1,
             (getCallersRecN d (isCallerOf db pr.1 fn).2 pr.1).2)
          else (s, (isCallerOf db pr.1 fn).2)) : String × CSDB).2
        hrest2).trans h2

theorem getCallersRecN_frame : ∀ (d : Nat) (db : CSDB) (fn : String),
    (getCallersRecN d db fn).2 = db := by
  intro d
  induction d with
  | zero => intro db fn; rfl
  | succ d ih =>
    intro db fn
    exact callersFoldFrame d ih db fn "" db (fun pr hpr => contains_of_mem db pr hpr)

theorem calleesFoldExtend (d : Nat)
    (IH : ∀ (db : CSDB) (fn : String), ∃ t, (getCalleesRecN d db fn).2 = db ++ t) :
    ∀ (l : List CSFuncCall) (fn : String) (s : String) (db : CSDB),
      ∃ t, (l.foldl
        (fun acc callee =>
          let sr := getCalleesRecN d acc.2 callee.name
          (acc.1 ++ edgeLine fn callee.name ++ sr.1, sr.2))
        (s, db)).2 = db ++ t := by
  intro l fn
  induction l with
  | nil => intro s db; exact ⟨[], by simp⟩
  | cons cl rest ih =>
    intro s db
    obtain ⟨t1, h1⟩ := IH db cl.name
    obtain ⟨t2, h2⟩ :=
      ih (s ++ edgeLine fn cl.name ++ (getCalleesRecN d db cl.name).1)
         (getCalleesRecN d db cl.name).2
    exact ⟨t1 ++ t2, h2.trans (by rw [h1]; exact List.append_assoc db t1 t2)⟩

theorem getCalleesRecN_extend : ∀ (d : Nat) (db : CSDB) (fn : String),
    ∃ t, (getCalleesRecN d db fn).2 = db ++ t := by
  intro d
  induction d with
  | zero => intro db fn; exact ⟨[], (List.append_nil db).symm⟩
  | succ d ih =>
    intro db fn
    obtain ⟨t0, h0⟩ := hashInsert_extend db fn ([] : List CSFuncCall)
    obtain ⟨t1, h1⟩ :=
      calleesFoldExtend d ih (mapGet (hashInsert db fn []) fn) fn "" (hashInsert db fn [])
    exact ⟨t0 ++ t1, h1.trans (by rw [h0]; exact List.append_assoc db t0 t1)⟩

theorem selfLoopEdges : ∀ (n : Nat), getCalleesRecN n selfDb "A" = (edgeRepeat n, selfDb) := by
  intro n
  induction n with
  | zero => rfl
  | succ n ih =>
    show ("" ++ edgeLine "A" "A" ++ (getCalleesRecN n selfDb "A").1,
          (getCalleesRecN n selfDb "A").2) = (edgeRepeat (n + 1), selfDb)
    rw [ih]
    have he : "" ++ edgeLine "A" "A" = "    A -> A\n" := by decide
    show (("" ++ edgeLine "A" "A") ++ edgeRepeat n, selfDb)
        = ("    A -> A\n" ++ edgeRepeat n, selfDb)
    rw [he]

/-! ### Claim theorems -/

/-- C1: the claim states that a header whose first token is not `cscope`
(or that carries an unrecognized flag token) aborts the load fatally with
no call graph and no query output.  The code only returns early from
`initHeader` (`ERR` merely logs when logging is enabled): on the bad-tag
input the load still runs the symbol decoder and produces a non-empty call
graph whose callee query emits an edge, and on both failing headers the
trailer offset keeps its indeterminate prior value (999 in the `hdrG`
instantiation) instead of being parsed from the line. -/
theorem c1_format_error_not_fatal :
    csLoad c1data hdrG "" = some [("f", [⟨"k", CS_FN_CALL, 1⟩])] ∧
    (getCalleesRec [("f", [⟨"k", CS_FN_CALL, 1⟩])] "f" 5).1 = "    f -> k\n" ∧
    (initHeader c1data hdrG "").trailer = hdrG.trailer ∧
    (initHeader c1flagData hdrG "").trailer = hdrG.trailer := by
  refine ⟨by decide, by decide, by decide, by decide⟩

/-- C2 counterexample: the claim states the mapping is unchanged by the
queries even when a reached callee is absent.  On the one-edge graph
A → B, `computeCallees(A, 2)` reaches the absent name B and `(*db)[B]`
inserts it: the key set grows by `("B", [])`. -/
theorem c2_not_read_only_cex :
    (getCalleesRec c2db "A" 2).2 ≠ c2db ∧
    (getCalleesRec c2db "A" 2).2 = c2db ++ [("B", [])] := by decide

/-- C2 (amended): `computeCallers` leaves the mapping exactly unchanged;
`computeCallees` never modifies an existing entry, but may append fresh
empty-calleed entries for queried or reached names that were absent (the
`operator[]` insertion), so the result is always the original mapping
followed by some (possibly empty) tail of new entries. -/
theorem c2_query_frame_amended :
    ∀ (db : CSDB) (fn : String) (depth : Int),
      (getCallersRec db fn depth).2 = db ∧
      ∃ t, (getCalleesRec db fn depth).2 = db ++ t := by
  intro db fn depth
  constructor
  · unfold getCallersRec
    split
    · rfl
    · exact getCallersRecN_frame depth.toNat db fn
  · unfold getCalleesRec
    split
    · exact ⟨[], (List.append_nil db).symm⟩
    · exact getCalleesRecN_extend depth.toNat db fn

/-- C3 counterexample: in `c3data` the next file-record line `\t@b.c`
starts at offset 16.  The claim states the rewind restores the cursor
exactly to the start of that line and that the next read returns the line
intact.  `fileLoadSymbols` returns with the cursor at 17 (the `strlen`
subtraction does not account for the consumed newline), and the next read
from there yields `@b.c`, not `\t@b.c`. -/
theorem c3_rewind_cex :
    ((fileLoadSymbols (c3data.length + 2) "" c3file [] ⟨0, c3data⟩).map
        (fun r => r.2.2.off)) = some 17 ∧
    ((fileLoadSymbols (c3data.length + 2) "" c3file [] ⟨0, c3data⟩).map
        (fun r => r.2.2.off)) ≠ some 16 ∧
    (getLine ⟨17, c3data⟩ "" 1024).2 = "@b.c" ∧
    (getLine ⟨17, c3data⟩ "" 1024).2 ≠ "\t@b.c" := by decide

/-- C3 (amended): the rewind restores the cursor to one byte past the
start of the file-record line, so the outer loop's next read returns the
record minus its first character; because a file record begins with
whitespace before the mark and `newFile` skips leading whitespace, the
shortened line still decodes to the same file.  The last conjunct is the
general fact: dropping one leading whitespace character never changes the
decoded file. -/
theorem c3_rewind_off_by_one :
    ((fileLoadSymbols (c3data.length + 2) "" c3file [] ⟨0, c3data⟩).map
        (fun r => r.2.2.off)) = some 17 ∧
    (getLine ⟨17, c3data⟩ "" 1024).2 = "@b.c" ∧
    newFile "@b.c" = newFile "\t@b.c" ∧
    ∀ (ch : Char) (s : List Char), csIsSpace ch = true →
      newFile (String.mk (ch :: s)) = newFile (String.mk s) := by
  refine ⟨by decide, by decide, by decide, ?_⟩
  intro ch s h
  have hd : (String.mk (ch :: s)).toList.dropWhile csIsSpace
      = (String.mk s).toList.dropWhile csIsSpace := by
    show List.dropWhile csIsSpace (ch :: s) = List.dropWhile csIsSpace s
    simp [List.dropWhile, h]
  simp only [newFile, hd]

theorem c3_rewind_off_by_one_witness :
    csIsSpace '\t' = true ∧
    newFile (String.mk ('\t' :: "@x.c".toList)) = newFile (String.mk "@x.c".toList) :=
  ⟨by decide, c3_rewind_off_by_one.2.2.2 '\t' "@x.c".toList (by decide)⟩

/-- C4 counterexample: the claim states a failed read (here: the buffer
`ab` ends mid-record) produces the empty string.  `getLine` returns
without touching the caller's buffer, so the returned line is the
buffer's previous content `z`, not the empty string. -/
theorem c4_truncated_read_cex :
    (getLine ⟨0, "ab".toList⟩ "z" 1024).2 = "z" ∧
    (getLine ⟨0, "ab".toList⟩ "z" 1024).2 ≠ "" := by decide

/-- C4 (amended): on a record longer than the buffer or a buffer ending
mid-record, `getLine` copies nothing — the caller's buffer keeps its
previous contents (so the record reads as empty exactly when the buffer
already held the empty string, as with a zero-initialized buffer) — and
the cursor still advances past the record so decoding continues. -/
theorem c4_truncated_read_keeps_buffer (p : pos_t) (buf : String) (buf_len : Nat)
    (h : findNl p.data p.off + 1 ≥ p.data.length ∨ findNl p.data p.off - p.off > buf_len) :
    getLine p buf buf_len = ({ p with off := findNl p.data p.off + 1 }, buf) ∧
    p.off < (getLine p buf buf_len).1.off := by
  constructor
  · show (if findNl p.data p.off + 1 ≥ p.data.length ∨ findNl p.data p.off - p.off > buf_len
          then (({ p with off := findNl p.data p.off + 1 } : pos_t), buf)
          else (({ p with off := findNl p.data p.off + 1 } : pos_t),
                String.mk ((p.data.drop p.off).take (findNl p.data p.off - p.off))))
        = ({ p with off := findNl p.data p.off + 1 }, buf)
    rw [if_pos h]
  · have h1 : (getLine p buf buf_len).1.off = findNl p.data p.off + 1 := by
      show (if findNl p.data p.off + 1 ≥ p.data.length ∨ findNl p.data p.off - p.off > buf_len
            then (({ p with off := findNl p.data p.off + 1 } : pos_t), buf)
            else (({ p with off := findNl p.data p.off + 1 } : pos_t),
                  String.mk ((p.data.drop p.off).take (findNl p.data p.off - p.off)))).1.off
          = findNl p.data p.off + 1
      split
      · rfl
      · rfl
    rw [h1]
    exact Nat.lt_succ_of_le (findNl_ge p.data p.off)

theorem c4_truncated_read_keeps_buffer_witness :
    (findNl "ab".toList 0 + 1 ≥ "ab".toList.length ∨ findNl "ab".toList 0 - 0 > 1024) ∧
    (getLine ⟨0, "ab".toList⟩ "z" 1024
        = ({ off := findNl "ab".toList 0 + 1, data := "ab".toList }, "z") ∧
     0 < (getLine ⟨0, "ab".toList⟩ "z" 1024).1.off) :=
  ⟨by decide, c4_truncated_read_keeps_buffer ⟨0, "ab".toList⟩ "z" 1024 (by decide)⟩

/-- C5: name collisions resolve by insert-if-absent everywhere.  Within a
file, `addFunctionDef` leaves the definition table unchanged when the
name is already registered; the database builder's insert likewise leaves
the mapping unchanged for an already-present key; and on the two-file
input `c5data` (both files define `f`) the final graph keeps the first
file's callee set for `f` (it calls `a`) while the second file's `f` (it
calls `b`) is not merged in — its other definition `k` still decodes. -/
theorem c5_first_definition_wins :
    (∀ (file : CSFile) (heap : List CSFuncDef) (fd : CSFuncDef),
        containsKey file.functions fd.name = true →
        (addFunctionDef file heap fd).1.functions = file.functions) ∧
    (∀ (db : CSDB) (k : String) (v : List CSFuncCall),
        containsKey db k = true → hashInsert db k v = db) ∧
    csLoad c5data hdr0c "" =
      some [("f", [⟨"a", CS_FN_CALL, 1⟩]), ("k", [⟨"d", CS_FN_CALL, 2⟩])] := by
  refine ⟨?_, ?_, by decide⟩
  · intro file heap fd h
    show hashInsert file.functions fd.name heap.length = file.functions
    exact hashInsert_of_contains _ _ _ h
  · intro db k v h
    exact hashInsert_of_contains db k v h

theorem c5_first_definition_wins_witness :
    containsKey ([("f", 0)] : List (String × Nat)) "f" = true ∧
    (addFunctionDef ⟨"a.c", '@', [("f", 0)], some 0⟩ [] ⟨"f", CS_FN_DEF, 2, []⟩).1.functions
      = [("f", 0)] ∧
    hashInsert ([("f", [])] : CSDB) "f" [] = [("f", [])] :=
  ⟨by decide,
   c5_first_definition_wins.1 ⟨"a.c", '@', [("f", 0)], some 0⟩ [] ⟨"f", CS_FN_DEF, 2, []⟩
     (by decide),
   c5_first_definition_wins.2.1 [("f", [])] "f" [] (by decide)⟩

/-- C6: on the graph with exactly the edges A → B and B → C,
`computeCallees(A, 2)` renders exactly `    A -> B` then `    B -> C`, in
that order, and the mapping is unchanged; on the same graph extended with
C → D the output is identical, so C's own callees are not explored (the
recursion on C happens with remaining depth 0). -/
theorem c6_two_edge_chain :
    getCalleesRec c6db "A" 2 = ("    A -> B\n    B -> C\n", c6db) ∧
    getCalleesRec c6dbD "A" 2 = ("    A -> B\n    B -> C\n", c6dbD) := by decide

/-- C7: both traversals are total functions of the graph and the depth
(their definitions recurse on the depth alone, which is the termination
argument even on cyclic graphs).  On the graph whose only edge is the
self-edge A → A, a callee query at any depth `n` emits exactly `n`
copies of `    A -> A`; at depth 3 both `computeCallees` and
`computeCallers` emit exactly three such edges and leave the graph
unchanged. -/
theorem c7_depth_bounded_cycles :
    (∀ (n : Nat), getCalleesRecN n selfDb "A" = (edgeRepeat n, selfDb)) ∧
    getCalleesRec selfDb "A" 3 = ("    A -> A\n    A -> A\n    A -> A\n", selfDb) ∧
    getCallersRec selfDb "A" 3 = ("    A -> A\n    A -> A\n    A -> A\n", selfDb) :=
  ⟨selfLoopEdges, by decide, by decide⟩

/-- C8: within one definition, call sites naming the same callee collapse
to one entry: `addCallee` with an already-present callee name is the
identity, and on the input `c8data` (one definition `f` with two `k`
call-site records) the final graph has exactly one `f → k` edge. -/
theorem c8_callee_dedup :
    (∀ (heap : List CSFuncDef) (i : Nat) (c c' : CSFuncCall),
        c.name = c'.name →
        addCallee (addCallee heap i c) i c' = addCallee heap i c) ∧
    csLoad c8data hdr0c "" = some [("f", [⟨"k", CS_FN_CALL, 1⟩])] := by
  refine ⟨?_, by decide⟩
  intro heap i c c' hname
  cases hh : heap.get? i with
  | none => simp only [addCallee, hh]
  | some fd =>
    simp only [addCallee, hh]
    have hget : (heap.set i { fd with callees := hashInsert fd.callees c.name c }).get? i
        = some { fd with callees := hashInsert fd.callees c.name c } :=
      getSetSame heap i fd _ hh
    rw [hget]
    rw [← hname]
    dsimp only
    rw [hashInsert_of_contains _ _ _ (contains_hashInsert_self fd.callees c.name c)]
    exact setGetSelf _ i _ hget

theorem c8_callee_dedup_witness :
    (⟨"k", CS_FN_CALL, 1⟩ : CSFuncCall).name = (⟨"k", CS_FN_CALL, 2⟩ : CSFuncCall).name ∧
    addCallee (addCallee [⟨"f", CS_FN_DEF, 1, []⟩] 0 ⟨"k", CS_FN_CALL, 1⟩) 0 ⟨"k", CS_FN_CALL, 2⟩
      = addCallee [⟨"f", CS_FN_DEF, 1, []⟩] 0 ⟨"k", CS_FN_CALL, 1⟩ :=
  ⟨rfl, c8_callee_dedup.1 [⟨"f", CS_FN_DEF, 1, []⟩] 0 ⟨"k", CS_FN_CALL, 1⟩ ⟨"k", CS_FN_CALL, 2⟩ rfl⟩

/-- C9: on `c9data` the call record `x` appears before any definition of
its file; the decode completes without error and the final graph is
exactly `f → k`, so the early call site contributes no edge. -/
theorem c9_call_before_def_dropped :
    csLoad c9data hdr0c "" = some [("f", [⟨"k", CS_FN_CALL, 1⟩])] := by decide

/-- C10: on `c10data` the duplicate `$f` record is not registered, but it
does become the current definition, so the following call record `b`
attaches to the discarded object and never reaches the graph; the first
`f` keeps exactly its own callee `a`, and after the next distinct
definition `$h` call sites attach to `h` again (`h → w`). -/
theorem c10_duplicate_def_swallows_calls :
    csLoad c10data hdr0c "" =
      some [("f", [⟨"a", CS_FN_CALL, 1⟩]), ("h", [⟨"w", CS_FN_CALL, 1⟩])] := by decide
